import Mathlib

/-!
Shallow embedding of the markdown→DOCX conversion tool (`tools/doc.py`):
the chart-text filter, the recursive HTML-element dispatcher, the inline
run formatter, the list/table/code-block sub-handlers, the top-level
invocation wrapper, and the (dead-code) numbering-label transform.

Strings are modelled as Lean `String` (sequences of Unicode scalar
values, matching Python `str` code points).  Python's `str.lower` is
modelled by the ASCII `Char.toLower`; every keyword comparison in the
source involves only ASCII letters and Chinese characters, on which the
two agree.  Python's `str.strip` whitespace set is modelled by
`pyIsSpace` below.
-/

namespace DocTool

/-- Python `str.strip()` whitespace characters (the ones that can occur
in this pipeline): space, tab, newline, carriage return, vertical tab,
form feed. -/
def pyIsSpace (c : Char) : Bool :=
  c = ' ' || c = '\t' || c = '\n' || c = '\r' || c = '\x0b' || c = '\x0c'

/-- Python `str.strip()`: drop leading and trailing whitespace. -/
def pyStrip (s : String) : String :=
  ⟨((s.data.dropWhile pyIsSpace).reverse.dropWhile pyIsSpace).reverse⟩

/-- Python `str.lower()` (ASCII case folding; the source only compares
ASCII keywords and Chinese characters, which are unaffected). -/
def pyLower (s : String) : String :=
  ⟨s.data.map Char.toLower⟩

/-- `text.replace("↓", "")`: the scan removing every occurrence of the
down-arrow marker (a single character, so the scan is a filter). -/
def removeArrowL : List Char → List Char
  | [] => []
  | c :: cs => if c = '↓' then removeArrowL cs else c :: removeArrowL cs

/-- `text.replace("↓", "")` on strings. -/
def stripArrow (s : String) : String :=
  ⟨removeArrowL s.data⟩

/-- Python's substring test `needle in hay`. -/
def strContains (hay needle : String) : Bool :=
  decide (needle.data <:+: hay.data)

/-- Python `' '.join(items)`. -/
def joinSpace (items : List String) : String :=
  String.intercalate " " items

/-- The effective chart-keyword list of `_is_chart_related_text`
(`tools/doc.py` lines 430–436; the second definition of the method,
which shadows the earlier one at lines 81–92). -/
def chart_keywords : List String :=
  ["echarts", "echart", "chart", "charts", "图表", "图表说明", "图表描述", "图表展示",
   "canvas", "svg", "visualization", "可视化", "visualize",
   "图例", "坐标轴", "tooltip", "数据可视化", "highcharts", "highchart",
   "d3.js", "d3", "plotly", "chartjs", "chart.js", "amcharts",
   "柱状图", "折线图", "饼图", "散点图", "条形图", "雷达图", "图表展示："]

/-- `_is_chart_related_text` (`tools/doc.py` lines 422–438, the
definition that is in effect): empty text is not chart-related;
otherwise lower-case, strip, and test each keyword as a substring. -/
def isChartRelatedText (text : String) : Bool :=
  if text = "" then false
  else chart_keywords.any (fun k => strContains (pyStrip (pyLower text)) k)

/-- The inline chart-keyword list of the `div` branch of
`_process_html_elements` (`tools/doc.py` lines 249–253).  Note this
list differs from `chart_keywords`: it has `graph` and `plot` and lacks
`svg`, `tooltip` and most of the Chinese keywords. -/
def div_chart_keywords : List String :=
  ["echarts", "echart", "chart", "charts", "graph", "plot", "canvas",
   "visualization", "visualize", "highcharts", "highchart",
   "d3", "plotly", "chartjs", "amcharts", "图表", "图表展示"]

/-- A node of the parsed HTML tree: a `NavigableString` or a `Tag` with
a name, an `id` attribute (empty when absent), a class list and ordered
children.  (`<br>` and other tags are distinguished by their name.) -/
inductive Node where
  | text (s : String)
  | elem (tag : String) (idAttr : String) (classes : List String) (children : List Node)
deriving Repr

/-- BeautifulSoup `get_text()` over a list of sibling nodes:
concatenation of every descendant string, in document order, with no
separator. -/
def getTextL : List Node → String
  | [] => ""
  | .text s :: ns => s ++ getTextL ns
  | .elem _ _ _ cs :: ns => getTextL cs ++ getTextL ns

/-- BeautifulSoup `element.get_text()`. -/
def getText : Node → String
  | .text s => s
  | .elem _ _ _ cs => getTextL cs

/-- BeautifulSoup `find_all(p)` over a list of sibling nodes: all tags
whose name satisfies `p`, in preorder document order, nested matches
included. -/
def findAllL (p : String → Bool) : List Node → List Node
  | [] => []
  | .text _ :: ns => findAllL p ns
  | .elem tag i cl cs :: ns =>
      (if p tag then [Node.elem tag i cl cs] else [])
        ++ findAllL p cs ++ findAllL p ns

/-- BeautifulSoup `element.find_all(p)`: descendants of the element
(not the element itself). -/
def findAll (p : String → Bool) : Node → List Node
  | .text _ => []
  | .elem _ _ _ cs => findAllL p cs

/-- The chart test of the `div` branch (`tools/doc.py` lines 244–254):
lower-cased id, space-joined lower-cased class list, stripped
lower-cased full text, each searched for every `div_chart_keywords`
entry. -/
def divIsChart (idAttr : String) (classes : List String) (text : String) : Bool :=
  let divId := pyLower idAttr
  let divClass := pyLower (joinSpace classes)
  let divText := pyLower (pyStrip text)
  div_chart_keywords.any (fun k =>
    strContains divId k || strContains divClass k || strContains divText k)

/-- The state of one run of the output document: its text and the font
attributes the source assigns (`python-docx` tri-state attributes start
unset).  `fontName` models `run.font.name` together with the
`w:eastAsia` override the source always sets alongside it. -/
structure Run where
  text : String
  fontName : Option String := none
  sizePt : Option Nat := none
  black : Bool := false
  italic : Option Bool := none
  bold : Option Bool := none
deriving Repr, DecidableEq

/-- Paragraph-level formatting actually set by the source. -/
structure ParaFmt where
  style : Option String := none
  firstLineIndentPt : Option Nat := none
  lineSpacingPm : Option Nat := none
  sideIndentHalfIn : Bool := false
  centered : Bool := false
deriving Repr, DecidableEq

/-- A block-level item of the output document. -/
inductive Block where
  | para (fmt : ParaFmt) (runs : List Run)
  | heading (level : Nat) (runs : List Run)
  | table (grid : List (List String))
deriving Repr, DecidableEq

/-- The unconditional final step of each `_add_run_with_formatting`
iteration (`tools/doc.py` lines 305–315): force body-text font, size
and color; the italic/bold flags are left alone. -/
def normalizeRun (r : Run) : Run :=
  { r with fontName := some "宋体", sizePt := some 12, black := true }

/-- `_add_run_with_formatting` (`tools/doc.py` lines 264–315), modelled
as the list of runs appended to the paragraph.  Every branch that
creates a run reaches the normalization block in the same loop
iteration, so each created run is `normalizeRun`-ed; the re-application
of the normalization block after a recursion branch only rewrites the
frame's previously created (already normalized) run with the same
values, and its `UnboundLocalError` when no run exists yet is swallowed
— both are no-ops and are not represented. -/
def addRuns : List Node → List Run
  | [] => []
  | .text s :: rest =>
      let t := stripArrow s
      (if isChartRelatedText t then [] else [normalizeRun { text := t }])
        ++ addRuns rest
  | .elem tag _ _ cs :: rest =>
      (if tag = "strong" || tag = "b" then
        let t := stripArrow (getTextL cs)
        if isChartRelatedText t then [] else [normalizeRun { text := t }]
      else if tag = "em" || tag = "i" then
        let t := stripArrow (getTextL cs)
        if isChartRelatedText t then []
        else [normalizeRun { text := t, italic := some true }]
      else if tag = "code" then
        let t := stripArrow (getTextL cs)
        [normalizeRun { text := t, fontName := some "Courier New",
                        sizePt := some 9, black := true }]
      else
        addRuns cs)
        ++ addRuns rest

/-- The run of a loose-text / list-item paragraph (`宋体`, 12 pt,
black; `tools/doc.py` lines 116–122 and 335–341). -/
def bodyRun (t : String) : Run :=
  { text := t, fontName := some "宋体", sizePt := some 12, black := true }

/-- A heading run (`黑体`, black, explicit italic `False`;
`tools/doc.py` lines 130–193). -/
def headingRun (t : String) (size : Nat) : Run :=
  { text := t, fontName := some "黑体", sizePt := some size, black := true,
    italic := some false }

/-- The body-paragraph format: 24 pt first-line indent, 1.25 line
spacing (stored per-mille-of-hundredths as 125). -/
def bodyFmt : ParaFmt := { firstLineIndentPt := some 24, lineSpacingPm := some 125 }

/-- `_add_list` (`tools/doc.py` lines 317–349).  The Python recursion
descends into the first nested `<ul>` and first nested `<ol>` found by
`item.find`, a strict descendant, so it terminates; `fuel` bounds that
descent (any fuel at least the tree height gives the Python result, and
the dispatcher below passes `sizeOf`, which suffices). -/
def addList (fuel : Nat) (isNumbered : Bool) (listElement : Node) : List Block :=
  match fuel with
  | 0 => []
  | fuel + 1 =>
    let items : List Node := match listElement with
      | .elem _ _ _ cs => cs.filter (fun n => match n with
          | .elem "li" _ _ _ => true
          | _ => false)
      | .text _ => []
    (items.map (fun item =>
      let itemText := pyStrip (stripArrow (getText item))
      if itemText = "" then []
      else if isChartRelatedText itemText then []
      else
        let block := Block.para
          { style := some (if isNumbered then "List Number" else "List Bullet"),
            firstLineIndentPt := some 0, lineSpacingPm := some 125 }
          [bodyRun itemText]
        let nestedUl := (findAll (fun t => t = "ul") item).head?
        let nestedOl := (findAll (fun t => t = "ol") item).head?
        [block]
          ++ (match nestedUl with
              | some u => addList fuel false u
              | none => [])
          ++ (match nestedOl with
              | some o => addList fuel true o
              | none => []))).flatten

/-- `_add_code_block` (`tools/doc.py` lines 351–375): optional italic
language line, then the code text (down-arrow stripped again) in
Courier New 9 pt, with half-inch side indents. -/
def addCodeBlock (code : String) (language : String) : Block :=
  Block.para
    { firstLineIndentPt := some 0, lineSpacingPm := some 125, sideIndentHalfIn := true }
    ((if language ≠ "" then
        [{ text := "Language: " ++ language ++ "\n", italic := some true,
           fontName := some "宋体", sizePt := some 12, black := true }]
      else []) ++
     [{ text := stripArrow code, fontName := some "Courier New",
        sizePt := some 9, black := true }])

/-- Cell list of one table row: `row.find_all(['th','td'])`. -/
def cellsOf (row : Node) : List Node :=
  findAll (fun t => t = "th" || t = "td") row

/-- `_add_html_table` (`tools/doc.py` lines 377–420), modelled as the
text grid of the emitted table: `none` when the table has no `<tr>`;
otherwise one row per `<tr>`, with the first row's cell count fixing
the column count, each present cell down-arrow stripped and cleared
when chart-related, absent cells left at the pre-allocated empty
string, and extra cells skipped by the `j >= col_count` guard. -/
def addHtmlTable (table : Node) : Option (List (List String)) :=
  match findAll (fun t => t = "tr") table with
  | [] => none
  | r0 :: rest =>
    let colCount := (cellsOf r0).length
    some ((r0 :: rest).map (fun r =>
      (List.range colCount).map (fun j =>
        match (cellsOf r)[j]? with
        | some c =>
            if isChartRelatedText (stripArrow (getText c)) then ""
            else stripArrow (getText c)
        | none => "")))

/-- Total node count of a forest; an executable bound on its height,
used as fuel for the nested-list recursion. -/
def nodesSize : List Node → Nat
  | [] => 0
  | .text _ :: ns => 1 + nodesSize ns
  | .elem _ _ _ cs :: ns => 1 + nodesSize cs + nodesSize ns

/-- Node count of one tree. -/
def nodeSize (n : Node) : Nat := nodesSize [n]

/-- Heading point sizes (`tools/doc.py` lines 136, 147, 158, 169, 180,
191): h1 → 16, h2 → 14, h3–h6 → 12. -/
def headingSize (level : Nat) : Nat :=
  if level = 1 then 16 else if level = 2 then 14 else 12

/-- `doc.add_heading` followed by the per-run formatting loop
(`python-docx` adds one run when the text is non-empty, none
otherwise). -/
def mkHeading (level : Nat) (t : String) : Block :=
  Block.heading level (if t = "" then [] else [headingRun t (headingSize level)])

/-- The language tag extracted from a `<pre>` element
(`tools/doc.py` lines 222–227): the first descendant `<code>` tag's
first class of the form `language-xxx`, else the empty string. -/
def preLanguage (el : Node) : String :=
  match (findAll (fun t => t = "code") el).head? with
  | some (.elem _ _ classes _) =>
      match classes.find? (fun c => c.startsWith "language-") with
      | some c => ⟨c.data.drop 9⟩
      | none => ""
  | _ => ""

/-- `_process_html_elements` (`tools/doc.py` lines 94–262) over the
children of the current node: each child is dispatched in the order of
the source's `if`/`elif` chain, and the produced blocks are appended
to the document in order. -/
def processNodes : List Node → List Block
  | [] => []
  | .text s :: ns =>
      (let t := pyStrip (stripArrow s)
       if isChartRelatedText t then []
       else if t ≠ "" ∧ 10 < t.length then [Block.para bodyFmt [bodyRun t]]
       else [])
        ++ processNodes ns
  | .elem tag idAttr classes cs :: ns =>
      (if tag = "br" then []
       else if tag = "h1" then [mkHeading 1 (pyStrip (stripArrow (getTextL cs)))]
       else if tag = "h2" then [mkHeading 2 (pyStrip (stripArrow (getTextL cs)))]
       else if tag = "h3" then [mkHeading 3 (pyStrip (stripArrow (getTextL cs)))]
       else if tag = "h4" then [mkHeading 4 (pyStrip (stripArrow (getTextL cs)))]
       else if tag = "h5" then [mkHeading 5 (pyStrip (stripArrow (getTextL cs)))]
       else if tag = "h6" then [mkHeading 6 (pyStrip (stripArrow (getTextL cs)))]
       else if tag = "p" then
         -- the `附件` branch and its `else` branch run the same statements
         if pyStrip (stripArrow (getTextL cs)) = "" then []
         else [Block.para bodyFmt (addRuns cs)]
       else if tag = "ul" then
         addList (nodeSize (Node.elem tag idAttr classes cs)) false
           (Node.elem tag idAttr classes cs)
       else if tag = "ol" then
         addList (nodeSize (Node.elem tag idAttr classes cs)) true
           (Node.elem tag idAttr classes cs)
       else if tag = "pre" then
         [addCodeBlock (stripArrow (getTextL cs))
            (preLanguage (Node.elem tag idAttr classes cs))]
       else if tag = "table" then
         match addHtmlTable (Node.elem tag idAttr classes cs) with
         | some grid => [Block.table grid]
         | none => []
       else if tag = "hr" then
         [Block.para {} [{ text := ⟨List.replicate 50 '_'⟩ }]]
       else if tag = "script" ∨ tag = "style" ∨ tag = "canvas" then []
       else if tag = "div" then
         if divIsChart idAttr classes (getTextL cs) then []
         else processNodes cs
       else processNodes cs)
        ++ processNodes ns

/-- The title paragraph of `_convert_markdown_to_docx`
(`tools/doc.py` lines 52–63): centered, bold, non-italic `黑体` 22 pt
black run. -/
def titleBlock (title : String) : Block :=
  Block.para { centered := true }
    [{ text := title, fontName := some "黑体", sizePt := some 22, black := true,
       bold := some true, italic := some false }]

/-- `_convert_markdown_to_docx` from the parsed HTML tree on: the title
paragraph followed by the transcription of the tree's top-level
children.  (The markdown→HTML and HTML-parsing libraries are external;
the tree is their output.) -/
def convertMarkdownToDocx (title : String) (tree : List Node) : List Block :=
  titleBlock title :: processNodes tree

/-- An output message of `_invoke`. -/
inductive Msg where
  | text (s : String)
  | blob (data : String) (mime : String) (filename : String)
deriving Repr, DecidableEq

/-- Whether a message is an attachment (blob) message. -/
def Msg.isBlob : Msg → Bool
  | .text _ => false
  | .blob _ _ _ => true

/-- The fixed MIME type of the emitted attachment. -/
def mimeDocx : String :=
  "application/vnd.openxmlformats-officedocument.wordprocessingml.document"

/-- `title.replace(' ', '_')`. -/
def spaceToUnderscore (s : String) : String :=
  ⟨s.data.map (fun c => if c = ' ' then '_' else c)⟩

/-- `_invoke` (`tools/doc.py` lines 19–47).  The fallible collaborators
— `_convert_markdown_to_docx` together with the libraries it calls, and
`doc.save` — are abstracted as `Except`-returning parameters (`error e`
models an exception whose `str` is `e`); both run before any success
message is yielded, and the top-level `except` turns either failure
into a single error text message. -/
def invoke (mdContent title : String)
    (convert : String → Except String (List Block))
    (save : List Block → Except String String) : List Msg :=
  if mdContent = "" then [Msg.text "No markdown content provided."]
  else
    match convert (stripArrow mdContent) with
    | .error e => [Msg.text ("Error converting markdown to DOCX: " ++ e)]
    | .ok doc =>
      match save doc with
      | .error e => [Msg.text ("Error converting markdown to DOCX: " ++ e)]
      | .ok fileBytes =>
        [Msg.text ("Document '" ++ title ++ "' generated successfully"),
         Msg.blob fileBytes mimeDocx (spaceToUnderscore title ++ ".docx")]

/-! ### The numbering-label transform (`_reset_number_counter`,
`_convert_number_labels`, `tools/doc.py` lines 440–473)

`re.sub` with a replacement function, applied once per pattern in the
source's order.  `\d` is modelled by ASCII `Char.isDigit` and `\s` by
`pyIsSpace`; the inputs of interest contain only ASCII digits and
spaces, where the two coincide with Python's Unicode classes. -/

/-- The per-call counter and mapping set up by `_reset_number_counter`. -/
structure NumState where
  counter : Nat
  mapping : List (String × String)
deriving Repr, DecidableEq

/-- `_reset_number_counter`: counter 1, empty mapping. -/
def freshNumState : NumState := ⟨1, []⟩

/-- The replacement function `replace_number`: look the captured digit
string up; on a miss assign the next counter value. -/
def assignNum (key : String) (st : NumState) : String × NumState :=
  match (st.mapping.find? (fun kv => kv.1 = key)).map Prod.snd with
  | some v => (v, st)
  | none =>
      let v := toString st.counter
      (v, ⟨st.counter + 1, st.mapping ++ [(key, v)]⟩)

/-- Match `(\d+)sep\s*` at the head of `l`: one or more digits, the
literal separator, then greedy whitespace.  Returns the captured digit
string and the remainder after the match. -/
def matchSimple (sep : Char) (l : List Char) : Option (List Char × List Char) :=
  if (l.takeWhile Char.isDigit).isEmpty then none
  else
    match l.dropWhile Char.isDigit with
    | c :: rest =>
        if c = sep then some (l.takeWhile Char.isDigit, rest.dropWhile pyIsSpace)
        else none
    | [] => none

/-- Match `\((\d+)\)\s*` at the head of `l`. -/
def matchParen (l : List Char) : Option (List Char × List Char) :=
  match l with
  | c :: cs => if c = '(' then matchSimple ')' cs else none
  | [] => none

/-- The four patterns of `_convert_number_labels`, in source order:
`(\d+)\.\s*`, `(\d+)、\s*`, `(\d+)\)\s*`, `\((\d+)\)\s*`.  (The last
two use ASCII parentheses, as in the source, although the adjacent
comment shows full-width ones.) -/
inductive NumPat where
  | dot | dun | rpar | parens
deriving Repr, DecidableEq

/-- Head-match of one pattern. -/
def matchPat : NumPat → List Char → Option (List Char × List Char)
  | .dot, l => matchSimple '.' l
  | .dun, l => matchSimple '、' l
  | .rpar, l => matchSimple ')' l
  | .parens, l => matchParen l

/-- The scan of `re.sub(pattern, replace_number, s)`: at each position
try the pattern; on a match emit `"(new) "` and resume after the match,
threading the counter/mapping state; otherwise copy the character.
Structural recursion on `fuel`; by `matchPat_length` every step
consumes at least one character, so `fuel = l.length` never runs out
and the fuel-exhausted branch is unreachable from `reSubNum`. -/
def reSubNumGo (p : NumPat) : Nat → List Char → NumState → List Char × NumState
  | _, [], st => ([], st)
  | 0, l, st => (l, st)
  | fuel + 1, c :: cs, st =>
    match matchPat p (c :: cs) with
    | some (ds, rest) =>
        let (newNum, st') := assignNum ⟨ds⟩ st
        let (out, st'') := reSubNumGo p fuel rest st'
        ('(' :: (newNum.data ++ [')', ' '] ++ out), st'')
    | none =>
        let (out, st') := reSubNumGo p fuel cs st
        (c :: out, st')

/-- `re.sub(pattern, replace_number, s)` over the character list. -/
def reSubNum (p : NumPat) (l : List Char) (st : NumState) : List Char × NumState :=
  reSubNumGo p l.length l st

/-- `_convert_number_labels`: apply the four `re.sub` passes in order
on the shared counter/mapping state, returning the transformed text and
the final state. -/
def convertNumberLabels (text : String) (st : NumState) : String × NumState :=
  let (r1, s1) := reSubNum .dot text.data st
  let (r2, s2) := reSubNum .dun r1 s1
  let (r3, s3) := reSubNum .rpar r2 s2
  let (r4, s4) := reSubNum .parens r3 s3
  (⟨r4⟩, s4)

/-! ### Specification-side definitions

These are written from the words of the specification/claims, to be
compared against the source embeddings above. -/

/-- All texts carried by one block: its run texts, or its cell grid. -/
def blockTexts : Block → List String
  | .para _ rs => rs.map Run.text
  | .heading _ rs => rs.map Run.text
  | .table g => g.flatten

/-- All texts of an output document. -/
def docTexts (bs : List Block) : List String :=
  (bs.map blockTexts).flatten

/-- Whether a string contains the down-arrow marker. -/
def hasArrow (s : String) : Bool := decide ('↓' ∈ s.data)

/-- Whether every string of a forest (text nodes, `id` attributes and
class names) is free of the down-arrow marker; this is the state of
the tree parsed from the pre-stripped markdown source. -/
def nodesArrowFree : List Node → Bool
  | [] => true
  | .text s :: ns => !hasArrow s && nodesArrowFree ns
  | .elem _ idAttr classes cs :: ns =>
      !hasArrow idAttr && classes.all (fun c => !hasArrow c)
        && nodesArrowFree cs && nodesArrowFree ns

/-- The chart keyword set asserted by the specification (claim C1):
the code's effective list plus `graph` and `plot` and minus the
redundant `echart`/`highchart`/`图表展示：` entries. -/
def claimChartKeywords : List String :=
  ["echarts", "chart", "charts", "graph", "plot", "canvas", "visualization",
   "visualize", "highcharts", "d3", "d3.js", "plotly", "chartjs", "chart.js",
   "amcharts", "svg", "tooltip",
   "图表", "图表说明", "图表描述", "图表展示", "可视化", "图例", "坐标轴",
   "数据可视化", "柱状图", "折线图", "饼图", "散点图", "条形图", "雷达图"]

/-- The claim's keyword set with `graph` and `plot` removed — the
amendment forced by the counterexample below. -/
def amendedChartKeywords : List String :=
  ["echarts", "chart", "charts", "canvas", "visualization",
   "visualize", "highcharts", "d3", "d3.js", "plotly", "chartjs", "chart.js",
   "amcharts", "svg", "tooltip",
   "图表", "图表说明", "图表描述", "图表展示", "可视化", "图例", "坐标轴",
   "数据可视化", "柱状图", "折线图", "饼图", "散点图", "条形图", "雷达图"]

/-- The claim's membership test, from the spec's words: the lowercased,
trimmed form of `t` contains at least one keyword as a plain
substring. -/
def specChartMatch (kws : List String) (t : String) : Bool :=
  kws.any (fun k => strContains (pyStrip (pyLower t)) k)

/-- The claim C4 container test, from the spec's words: the id, class,
or full text content matches the ChartKeywordSet. -/
def specContainerChartMatch (idAttr : String) (classes : List String)
    (text : String) : Bool :=
  claimChartKeywords.any (fun k =>
    strContains (pyLower idAttr) k || strContains (pyLower (joinSpace classes)) k
      || strContains (pyLower (pyStrip text)) k)

/-- The claim C6 loose-text behaviour, from the spec's words: skip when
chart-related, skip when the trimmed length is at most 10, else one
body paragraph with first-line indent and 1.25 line spacing. -/
def specLooseText (s : String) : List Block :=
  if isChartRelatedText (pyStrip (stripArrow s)) = true
      ∨ (pyStrip (stripArrow s)).length ≤ 10 then []
  else [Block.para bodyFmt [bodyRun (pyStrip (stripArrow s))]]

/-- The per-cell text of the emitted table, as the claim states it:
the row's `j`-th cell text down-arrow-stripped, cleared when
chart-related, and empty when the row has no `j`-th cell. -/
def specTableCell (r : Node) (j : Nat) : String :=
  match (cellsOf r)[j]? with
  | some c =>
      if isChartRelatedText (stripArrow (getText c)) then ""
      else stripArrow (getText c)
  | none => ""

/-- A concrete table for the C5 witness: a two-cell header row, a
three-cell row (one cell too many) and a one-cell chart row (one cell
short). -/
def tableRow0 : Node :=
  Node.elem "tr" "" [] [Node.elem "th" "" [] [Node.text "A"],
    Node.elem "th" "" [] [Node.text "B"]]

/-- Second row of the C5 witness table. -/
def tableRow1 : Node :=
  Node.elem "tr" "" [] [Node.elem "td" "" [] [Node.text "1"],
    Node.elem "td" "" [] [Node.text "2"], Node.elem "td" "" [] [Node.text "3"]]

/-- Third row of the C5 witness table. -/
def tableRow2 : Node :=
  Node.elem "tr" "" [] [Node.elem "td" "" [] [Node.text "图表展示"]]

/-- The C5 witness table element. -/
def tableExample : Node :=
  Node.elem "table" "" [] [tableRow0, tableRow1, tableRow2]

/-! ### Helper lemmas -/

theorem matchSimple_length {sep : Char} {l ds rest : List Char}
    (h : matchSimple sep l = some (ds, rest)) : rest.length < l.length := by
  unfold matchSimple at h
  split at h
  · exact absurd h (by simp)
  · split at h
    next c r hdrop =>
      split at h
      · have hr : rest = r.dropWhile pyIsSpace := by
          have := congrArg (fun o => Option.map Prod.snd o) h
          simpa using this.symm
        have h1 : rest.length ≤ r.length := by
          rw [hr]; exact (List.dropWhile_suffix pyIsSpace).length_le
        have h2 : (c :: r).length ≤ l.length := by
          rw [← hdrop]; exact (List.dropWhile_suffix Char.isDigit).length_le
        simp only [List.length_cons] at h2
        omega
      · exact absurd h (by simp)
    next => exact absurd h (by simp)

theorem matchPat_length {p : NumPat} {l ds rest : List Char}
    (h : matchPat p l = some (ds, rest)) : rest.length < l.length := by
  cases p with
  | dot => exact matchSimple_length h
  | dun => exact matchSimple_length h
  | rpar => exact matchSimple_length h
  | parens =>
      simp only [matchPat, matchParen] at h
      split at h
      next c cs =>
        split at h
        · have := matchSimple_length h
          simp only [List.length_cons]
          omega
        · exact absurd h (by simp)
      next => exact absurd h (by simp)


theorem removeArrowL_eq_filter (l : List Char) :
    removeArrowL l = l.filter (fun c => c ≠ '↓') := by
  induction l with
  | nil => rfl
  | cons c cs ih =>
      by_cases hc : c = '↓'
      · subst hc; simp [removeArrowL, ih]
      · simp [removeArrowL, hc, ih]

theorem not_mem_removeArrowL (l : List Char) : '↓' ∉ removeArrowL l := by
  rw [removeArrowL_eq_filter]
  intro h
  have := (List.mem_filter.mp h).2
  simp at this

theorem hasArrow_stripArrow (s : String) : hasArrow (stripArrow s) = false := by
  have h := not_mem_removeArrowL s.data
  simp only [hasArrow, stripArrow, decide_eq_false_iff_not]
  exact h

theorem mem_pyStrip {c : Char} {s : String} (h : c ∈ (pyStrip s).data) :
    c ∈ s.data := by
  unfold pyStrip at h
  have h1 : c ∈ (s.data.dropWhile pyIsSpace).reverse.dropWhile pyIsSpace := by
    simpa using h
  have h2 : c ∈ (s.data.dropWhile pyIsSpace).reverse :=
    ((List.dropWhile_suffix pyIsSpace).sublist.subset) h1
  have h3 : c ∈ s.data.dropWhile pyIsSpace := by simpa using h2
  exact ((List.dropWhile_suffix pyIsSpace).sublist.subset) h3

theorem hasArrow_pyStrip {s : String} (h : hasArrow s = false) :
    hasArrow (pyStrip s) = false := by
  simp only [hasArrow, decide_eq_false_iff_not] at h ⊢
  intro hmem
  exact h (mem_pyStrip hmem)

theorem stripArrow_eq_self {s : String} (h : hasArrow s = false) :
    stripArrow s = s := by
  simp only [hasArrow, decide_eq_false_iff_not] at h
  unfold stripArrow
  rw [removeArrowL_eq_filter]
  have : s.data.filter (fun c => c ≠ '↓') = s.data := by
    apply List.filter_eq_self.mpr
    intro c hc
    simp only [decide_eq_true_eq]
    intro hcv
    exact h (hcv ▸ hc)
  rw [this]

theorem strContains_trans {u a b : String} (hba : b.data <:+: a.data)
    (h : strContains u a = true) : strContains u b = true := by
  simp only [strContains, decide_eq_true_eq] at h ⊢
  exact hba.trans h

/-- On any processed text, the code's keyword list and the amended
claim list agree: the code's extra entries `echart`, `highchart` and
`图表展示：` are absorbed because each has an amended keyword
(`chart`, `图表`) as a substring. -/
theorem chart_any_eq (u : String) :
    chart_keywords.any (fun k => strContains u k)
      = amendedChartKeywords.any (fun k => strContains u k) := by
  by_cases h : amendedChartKeywords.any (fun k => strContains u k) = true
  · rw [h]
    rcases List.any_eq_true.mp h with ⟨k, hk, hc⟩
    apply List.any_eq_true.mpr
    refine ⟨k, ?_, hc⟩
    fin_cases hk <;> decide
  · rw [Bool.not_eq_true] at h
    rw [h]
    rw [Bool.eq_false_iff]
    intro hcode
    apply Bool.eq_false_iff.mp h
    rcases List.any_eq_true.mp hcode with ⟨k, hk, hc⟩
    apply List.any_eq_true.mpr
    fin_cases hk
    · exact ⟨"echarts", by decide, hc⟩
    · exact ⟨"chart", by decide, strContains_trans (by decide) hc⟩
    · exact ⟨"chart", by decide, hc⟩
    · exact ⟨"charts", by decide, hc⟩
    · exact ⟨"图表", by decide, hc⟩
    · exact ⟨"图表说明", by decide, hc⟩
    · exact ⟨"图表描述", by decide, hc⟩
    · exact ⟨"图表展示", by decide, hc⟩
    · exact ⟨"canvas", by decide, hc⟩
    · exact ⟨"svg", by decide, hc⟩
    · exact ⟨"visualization", by decide, hc⟩
    · exact ⟨"可视化", by decide, hc⟩
    · exact ⟨"visualize", by decide, hc⟩
    · exact ⟨"图例", by decide, hc⟩
    · exact ⟨"坐标轴", by decide, hc⟩
    · exact ⟨"tooltip", by decide, hc⟩
    · exact ⟨"数据可视化", by decide, hc⟩
    · exact ⟨"highcharts", by decide, hc⟩
    · exact ⟨"chart", by decide, strContains_trans (by decide) hc⟩
    · exact ⟨"d3.js", by decide, hc⟩
    · exact ⟨"d3", by decide, hc⟩
    · exact ⟨"plotly", by decide, hc⟩
    · exact ⟨"chartjs", by decide, hc⟩
    · exact ⟨"chart.js", by decide, hc⟩
    · exact ⟨"amcharts", by decide, hc⟩
    · exact ⟨"柱状图", by decide, hc⟩
    · exact ⟨"折线图", by decide, hc⟩
    · exact ⟨"饼图", by decide, hc⟩
    · exact ⟨"散点图", by decide, hc⟩
    · exact ⟨"条形图", by decide, hc⟩
    · exact ⟨"雷达图", by decide, hc⟩
    · exact ⟨"图表展示", by decide, strContains_trans (by decide) hc⟩

/-! ### Claim theorems -/

/-- C1 counterexample: the claim's keyword set contains `graph`, but
the effective `_is_chart_related_text` (the second, shadowing
definition) has no `graph` keyword, so the classifier and the claimed
set disagree on the input `"graph"`. -/
theorem C1_counterexample :
    ¬ (isChartRelatedText "graph" = specChartMatch claimChartKeywords "graph") := by
  decide

/-- C1 (amended): for every string `t`, `_is_chart_related_text t` is
true iff the lowercased, trimmed form of `t` contains, as a plain
substring, a keyword of the claim's set with `graph` and `plot`
removed. -/
theorem C1_chart_filter (t : String) :
    isChartRelatedText t = specChartMatch amendedChartKeywords t := by
  unfold isChartRelatedText specChartMatch
  by_cases ht : t = ""
  · subst ht; decide
  · rw [if_neg ht]
    exact chart_any_eq (pyStrip (pyLower t))

/-- C2: evaluation of `_convert_number_labels` on the four claimed
inputs, each from the fresh state of `_reset_number_counter`.  The
sequential `re.sub` passes re-match their own replacements, so the
ASCII-labelled inputs come out as `((1) …`, not `(1) …`, and the
full-width-punctuation inputs are returned unchanged because the
compiled patterns use ASCII `)`/`(`. -/
theorem C2_numbering_eval :
    (convertNumberLabels "1. 第一项内容" freshNumState).1 = "((1) 第一项内容"
    ∧ (convertNumberLabels "2、第二项内容" freshNumState).1 = "((1) 第二项内容"
    ∧ (convertNumberLabels "3）第三项内容" freshNumState).1 = "3）第三项内容"
    ∧ (convertNumberLabels "（4）第四项内容" freshNumState).1 = "（4）第四项内容" := by
  refine ⟨?_, ?_, ?_, ?_⟩ <;> rfl

/-- C3: in `_add_run_with_formatting` the final body-format block runs
unconditionally in every loop iteration, so a run created by the
`code` branch ends with the default body font `宋体` at 12 pt, its
Courier New 9 pt assignment overwritten; the italic flag of an
`em` run does survive that normalization. -/
theorem C3_code_run_normalized :
    addRuns [Node.elem "code" "" [] [Node.text "print(1)"]]
      = [{ text := "print(1)", fontName := some "宋体", sizePt := some 12,
           black := true, italic := none, bold := none }]
    ∧ addRuns [Node.elem "em" "" [] [Node.text "note text"]]
      = [{ text := "note text", fontName := some "宋体", sizePt := some 12,
           black := true, italic := some true, bold := none }] := by
  refine ⟨?_, ?_⟩ <;> (simp [addRuns, getTextL, normalizeRun]; rfl)

/-- C4 counterexample: a `<span class="echarts">` container matches the
claim's keyword set by class, yet the dispatcher recurses into it (only
`div` is tested), so its inner text is emitted as a body paragraph. -/
theorem C4_counterexample :
    specContainerChartMatch "" ["echarts"] "hello wonderful world of text" = true
    ∧ processNodes [Node.elem "span" "" ["echarts"]
        [Node.text "hello wonderful world of text"]]
      = [Block.para bodyFmt [bodyRun "hello wonderful world of text"]] := by
  refine ⟨by decide, ?_⟩
  simp [processNodes]
  rfl

/-- C4 (amended): for every `div` element whose id, class list, or
full text content matches the `div` branch's keyword list, the
dispatcher skips the element entirely without recursing into it, so it
contributes nothing to the output document. -/
theorem C4_div_chart_skip (idAttr : String) (classes : List String)
    (children rest : List Node)
    (h : divIsChart idAttr classes (getTextL children) = true) :
    processNodes (Node.elem "div" idAttr classes children :: rest)
      = processNodes rest := by
  simp only [processNodes]
  simp [h]

/-- C4 witness: a concrete chart `div` is dropped whole. -/
theorem C4_div_chart_skip_witness :
    processNodes [Node.elem "div" "" ["echarts-container"]
      [Node.text "chart markup inside the container"]] = [] :=
  (C4_div_chart_skip "" ["echarts-container"]
    [Node.text "chart markup inside the container"] []
    (by simp [getTextL]; decide)).trans
    (by simp [processNodes])

/-- C6: a loose text node is down-arrow-stripped and trimmed, then
skipped when chart-related or when at most 10 characters long, and
otherwise emitted as exactly one body paragraph with first-line indent
and 1.25 line spacing. -/
theorem C6_loose_text (s : String) :
    processNodes [Node.text s] = specLooseText s := by
  unfold specLooseText
  by_cases hc : isChartRelatedText (pyStrip (stripArrow s)) = true
  · simp [processNodes, hc]
  · rw [Bool.not_eq_true] at hc
    by_cases hlen : (pyStrip (stripArrow s)).length ≤ 10
    · have hng : ¬ (pyStrip (stripArrow s) ≠ ""
          ∧ 10 < (pyStrip (stripArrow s)).length) := by
        intro hand; omega
      simp [processNodes, hc, hlen, hng]
    · have hlt : 10 < (pyStrip (stripArrow s)).length := by omega
      have hne : pyStrip (stripArrow s) ≠ "" := by
        intro h0
        rw [h0] at hlt
        simp at hlt
      simp [processNodes, hc, hlen, hne, hlt]

/-- C8: an inline `code` child is emitted as a run even when its text
matches the chart filter, while plain text, `strong`/`b` and `em`/`i`
children with chart-matching text are skipped and produce no run. -/
theorem C8_code_bypasses_chart_filter (s : String)
    (h : isChartRelatedText (stripArrow s) = true) :
    addRuns [Node.elem "code" "" [] [Node.text s]]
      = [normalizeRun { text := stripArrow s, fontName := some "Courier New",
                        sizePt := some 9, black := true }]
    ∧ addRuns [Node.text s] = []
    ∧ addRuns [Node.elem "strong" "" [] [Node.text s]] = []
    ∧ addRuns [Node.elem "b" "" [] [Node.text s]] = []
    ∧ addRuns [Node.elem "em" "" [] [Node.text s]] = []
    ∧ addRuns [Node.elem "i" "" [] [Node.text s]] = [] := by
  have hg : getTextL [Node.text s] = s := by
    simp [getTextL, String.append_empty]
  refine ⟨?_, ?_, ?_, ?_, ?_, ?_⟩ <;> simp [addRuns, hg, h]

/-- C8 witness at a chart keyword. -/
theorem C8_code_bypasses_chart_filter_witness :
    isChartRelatedText (stripArrow "chart demo") = true
    ∧ addRuns [Node.elem "code" "" [] [Node.text "chart demo"]]
      = [normalizeRun { text := stripArrow "chart demo",
                        fontName := some "Courier New",
                        sizePt := some 9, black := true }]
    ∧ addRuns [Node.text "chart demo"] = [] :=
  ⟨by decide, (C8_code_bypasses_chart_filter "chart demo" (by decide)).1,
    (C8_code_bypasses_chart_filter "chart demo" (by decide)).2.1⟩

/-- C9: for non-empty markdown content, when the transcription or the
serialization raises, `_invoke` yields exactly one text message
containing the exception's description, and no attachment message. -/
theorem C9_error_single_message (md title e : String)
    (convert : String → Except String (List Block))
    (save : List Block → Except String String)
    (hmd : md ≠ "")
    (herr : (convert (stripArrow md)).bind save = Except.error e) :
    invoke md title convert save
      = [Msg.text ("Error converting markdown to DOCX: " ++ e)]
    ∧ (invoke md title convert save).length = 1
    ∧ (∀ m ∈ invoke md title convert save, m.isBlob = false)
    ∧ strContains ("Error converting markdown to DOCX: " ++ e) e = true := by
  have hmain : invoke md title convert save
      = [Msg.text ("Error converting markdown to DOCX: " ++ e)] := by
    unfold invoke
    rw [if_neg hmd]
    cases hconv : convert (stripArrow md) with
    | error e2 =>
        rw [hconv] at herr
        simp only [Except.bind] at herr
        injection herr with he
        subst he
        rfl
    | ok d =>
        rw [hconv] at herr
        simp only [Except.bind] at herr
        cases hsave : save d with
        | error e2 =>
            rw [hsave] at herr
            injection herr with he
            subst he
            simp [hsave]
        | ok b => rw [hsave] at herr; exact absurd herr (by simp)
  refine ⟨hmain, by rw [hmain]; rfl, ?_, ?_⟩
  · intro m hm
    rw [hmain] at hm
    simp only [List.mem_singleton] at hm
    rw [hm]
    rfl
  · simp only [strContains]
    apply decide_eq_true
    have hsuf : e.data <:+ ("Error converting markdown to DOCX: " ++ e).data := by
      show e.data <:+ ("Error converting markdown to DOCX: ").data ++ e.data
      exact List.suffix_append _ _
    exact hsuf.isInfix

/-- C9 witness: a failing conversion yields the single error message. -/
theorem C9_error_single_message_witness :
    invoke "x" "T" (fun _ => Except.error "boom") (fun _ => Except.ok "")
      = [Msg.text ("Error converting markdown to DOCX: " ++ "boom")]
    ∧ (invoke "x" "T" (fun _ => Except.error "boom") (fun _ => Except.ok "")).length = 1
    ∧ (∀ m ∈ invoke "x" "T" (fun _ => Except.error "boom") (fun _ => Except.ok ""),
        m.isBlob = false)
    ∧ strContains ("Error converting markdown to DOCX: " ++ "boom") "boom" = true :=
  C9_error_single_message "x" "T" "boom" (fun _ => Except.error "boom")
    (fun _ => Except.ok "") (by decide) rfl

/-- C10: `_convert_number_labels` is dead code — no transcription
handler calls it — so a paragraph's or list item's leading numeral
label reaches the output document unchanged, up to down-arrow
stripping and trimming: a `<p>` whose text is `t` emits the run text
`t` itself, and a list item emits `t` trimmed. -/
theorem C10_numbering_not_applied (t : String) (fuel : Nat)
    (harrow : hasArrow t = false)
    (hchart : isChartRelatedText t = false)
    (hchartStripped : isChartRelatedText (pyStrip t) = false)
    (hne : pyStrip t ≠ "") :
    processNodes [Node.elem "p" "" [] [Node.text t]]
      = [Block.para bodyFmt [bodyRun t]]
    ∧ addList (fuel + 1) true
        (Node.elem "ol" "" [] [Node.elem "li" "" [] [Node.text t]])
      = [Block.para { style := some "List Number", firstLineIndentPt := some 0,
                      lineSpacingPm := some 125 } [bodyRun (pyStrip t)]] := by
  have hs : stripArrow t = t := stripArrow_eq_self harrow
  have hg : getTextL [Node.text t] = t := by simp [getTextL]
  constructor
  · simp [processNodes, hg, hs, hne, addRuns, hchart, normalizeRun, bodyRun]
  · simp [addList, getText, hg, hs, hne, hchartStripped, findAll, findAllL]

/-- C10 witness: the numeral label `1. ` is emitted verbatim. -/
theorem C10_numbering_not_applied_witness :
    processNodes [Node.elem "p" "" [] [Node.text "1. 第一项内容"]]
      = [Block.para bodyFmt [bodyRun "1. 第一项内容"]]
    ∧ addList 1 true
        (Node.elem "ol" "" [] [Node.elem "li" "" [] [Node.text "1. 第一项内容"]])
      = [Block.para { style := some "List Number", firstLineIndentPt := some 0,
                      lineSpacingPm := some 125 } [bodyRun (pyStrip "1. 第一项内容")]] :=
  C10_numbering_not_applied "1. 第一项内容" 0 (by decide) (by decide) (by decide)
    (by decide)

/-- C5: for a table whose `<tr>` list is non-empty, the emitted grid
has one row per source row and exactly the first row's cell count as
its column count, and cell `(i, j)` holds the claimed per-cell text:
extra cells of long rows are ignored and missing cells of short rows
stay empty. -/
theorem C5_table_shape (tbl r0 : Node) (rest : List Node)
    (h : findAll (fun t => t = "tr") tbl = r0 :: rest) :
    ∃ g : List (List String), addHtmlTable tbl = some g
      ∧ g.length = rest.length + 1
      ∧ (∀ gr ∈ g, gr.length = (cellsOf r0).length)
      ∧ (∀ (i : Nat) (r : Node), (r0 :: rest)[i]? = some r →
          ∀ j : Nat, j < (cellsOf r0).length →
            (g[i]?.bind (fun gr : List String => gr[j]?))
              = some (specTableCell r j)) := by
  refine ⟨(r0 :: rest).map (fun r =>
      (List.range (cellsOf r0).length).map (fun j => specTableCell r j)),
    ?_, ?_, ?_, ?_⟩
  · unfold addHtmlTable
    rw [h]
    simp only [specTableCell]
  · simp
  · intro gr hgr
    rcases List.mem_map.mp hgr with ⟨r, _, hfr⟩
    rw [← hfr]
    simp
  · intro i r hir j hj
    simp only [List.getElem?_map, hir, Option.map_some', Option.some_bind]
    rw [List.getElem?_range hj]
    rfl

/-- C5 witness at the concrete table. -/
theorem C5_table_shape_witness :
    findAll (fun t => t = "tr") tableExample = tableRow0 :: [tableRow1, tableRow2]
    ∧ (∃ g : List (List String), addHtmlTable tableExample = some g
        ∧ g.length = [tableRow1, tableRow2].length + 1
        ∧ (∀ gr ∈ g, gr.length = (cellsOf tableRow0).length)
        ∧ (∀ (i : Nat) (r : Node),
            (tableRow0 :: [tableRow1, tableRow2])[i]? = some r →
            ∀ j : Nat, j < (cellsOf tableRow0).length →
              (g[i]?.bind (fun gr : List String => gr[j]?))
                = some (specTableCell r j))) :=
  ⟨by simp [tableExample, tableRow0, tableRow1, tableRow2, findAll, findAllL],
   C5_table_shape tableExample tableRow0 [tableRow1, tableRow2]
     (by simp [tableExample, tableRow0, tableRow1, tableRow2, findAll, findAllL])⟩

/-! ### Arrow-freeness of the emitted document (towards C7) -/

theorem docTexts_append (a b : List Block) :
    docTexts (a ++ b) = docTexts a ++ docTexts b := by
  simp [docTexts]

theorem mem_docTexts {t : String} {bs : List Block} :
    t ∈ docTexts bs ↔ ∃ b ∈ bs, t ∈ blockTexts b := by
  constructor
  · intro h
    rcases List.mem_flatten.mp h with ⟨l, hl, htl⟩
    rcases List.mem_map.mp hl with ⟨b, hb, hbl⟩
    exact ⟨b, hb, hbl ▸ htl⟩
  · rintro ⟨b, hb, htb⟩
    exact List.mem_flatten.mpr ⟨blockTexts b, List.mem_map.mpr ⟨b, hb, rfl⟩, htb⟩

theorem stripArrow_trim_arrowFree (s : String) :
    hasArrow (pyStrip (stripArrow s)) = false :=
  hasArrow_pyStrip (hasArrow_stripArrow s)

theorem hasArrow_append {a b : String} (ha : hasArrow a = false)
    (hb : hasArrow b = false) : hasArrow (a ++ b) = false := by
  simp only [hasArrow, decide_eq_false_iff_not] at ha hb ⊢
  intro hmem
  have hmem2 : '↓' ∈ a.data ++ b.data := hmem
  rcases List.mem_append.mp hmem2 with h | h
  · exact ha h
  · exact hb h

theorem addRuns_arrowFree :
    ∀ ns : List Node, ∀ r ∈ addRuns ns, hasArrow r.text = false := by
  intro ns
  induction ns using addRuns.induct with
  | case1 => intro r hr; simp [addRuns] at hr
  | case2 s rest ih =>
      intro r hr
      simp only [addRuns] at hr
      rcases List.mem_append.mp hr with h | h
      · split at h
        · exact absurd h (by simp)
        · simp only [List.mem_singleton] at h
          subst h
          exact hasArrow_stripArrow s
      · exact ih r h
  | case3 tag i cl cs rest ih1 ih2 =>
      intro r hr
      simp only [addRuns] at hr
      rcases List.mem_append.mp hr with h | h
      · split at h
        · split at h
          · exact absurd h (by simp)
          · simp only [List.mem_singleton] at h
            subst h
            exact hasArrow_stripArrow _
        · split at h
          · split at h
            · exact absurd h (by simp)
            · simp only [List.mem_singleton] at h
              subst h
              exact hasArrow_stripArrow _
          · split at h
            · simp only [List.mem_singleton] at h
              subst h
              exact hasArrow_stripArrow _
            · exact ih1 r h
      · exact ih2 r h

theorem addList_arrowFree :
    ∀ (fuel : Nat) (b : Bool) (el : Node),
      ∀ t ∈ docTexts (addList fuel b el), hasArrow t = false := by
  intro fuel
  induction fuel with
  | zero =>
      intro b el t ht
      simp [addList, docTexts] at ht
  | succ fuel ih =>
      intro b el t ht
      rcases mem_docTexts.mp ht with ⟨blk, hblk, htb⟩
      simp only [addList] at hblk
      rcases List.mem_flatten.mp hblk with ⟨bl, hbl, hblk2⟩
      rcases List.mem_map.mp hbl with ⟨item, _, hf⟩
      rw [← hf] at hblk2
      split at hblk2
      · exact absurd hblk2 (by simp)
      · split at hblk2
        · exact absurd hblk2 (by simp)
        · rcases List.mem_append.mp hblk2 with h1 | h2
          · rcases List.mem_append.mp h1 with h0 | hU
            · simp only [List.mem_singleton] at h0
              subst h0
              simp only [blockTexts, List.map, List.mem_singleton] at htb
              subst htb
              exact stripArrow_trim_arrowFree _
            · split at hU
              · exact ih false _ t (mem_docTexts.mpr ⟨blk, hU, htb⟩)
              · exact absurd hU (by simp)
          · split at h2
            · exact ih true _ t (mem_docTexts.mpr ⟨blk, h2, htb⟩)
            · exact absurd h2 (by simp)

theorem addHtmlTable_arrowFree {tbl : Node} {g : List (List String)}
    (h : addHtmlTable tbl = some g) :
    ∀ t ∈ blockTexts (Block.table g), hasArrow t = false := by
  intro t ht
  simp only [blockTexts] at ht
  rcases List.mem_flatten.mp ht with ⟨row, hrow, htr⟩
  unfold addHtmlTable at h
  split at h
  · exact absurd h (by simp)
  · injection h with hg
    subst hg
    rcases List.mem_map.mp hrow with ⟨r, _, hfr⟩
    rw [← hfr] at htr
    rcases List.mem_map.mp htr with ⟨j, _, hcj⟩
    rw [← hcj]
    split
    · split
      · decide
      · exact hasArrow_stripArrow _
    · decide

theorem findAllL_arrowFree {p : String → Bool} :
    ∀ ns : List Node, nodesArrowFree ns = true →
      ∀ tag i classes cs, Node.elem tag i classes cs ∈ findAllL p ns →
        classes.all (fun c => !hasArrow c) = true ∧ nodesArrowFree cs = true := by
  intro ns
  induction ns using findAllL.induct (p := p) with
  | case1 => intro _ tag i classes cs hmem; simp [findAllL] at hmem
  | case2 s rest ih =>
      intro hn tag i classes cs hmem
      simp only [nodesArrowFree, Bool.and_eq_true] at hn
      simp only [findAllL] at hmem
      exact ih hn.2 tag i classes cs hmem
  | case3 tag2 i2 cl2 cs2 rest ih1 ih2 =>
      intro hn tag i classes cs hmem
      simp only [nodesArrowFree, Bool.and_eq_true] at hn
      rcases hn with ⟨⟨⟨_, hcl2⟩, hcs2⟩, hrest⟩
      simp only [findAllL] at hmem
      rcases List.mem_append.mp hmem with h1 | h2
      · rcases List.mem_append.mp h1 with h0 | hcs
        · split at h0
          · simp only [List.mem_singleton] at h0
            injection h0 with _ _ hcleq hcseq
            rw [hcleq, hcseq]
            exact ⟨hcl2, hcs2⟩
          · exact absurd h0 (by simp)
        · exact ih1 hcs2 tag i classes cs hcs
      · exact ih2 hrest tag i classes cs h2

theorem preLanguage_arrowFree {tag idAttr : String} {classes : List String}
    {cs : List Node} (hcs : nodesArrowFree cs = true) :
    hasArrow (preLanguage (Node.elem tag idAttr classes cs)) = false := by
  unfold preLanguage
  simp only [findAll]
  split
  next a b classes2 d heq =>
    split
    next c hfind =>
      have hmemN : Node.elem a b classes2 d
          ∈ findAllL (fun t => t = "code") cs :=
        List.mem_of_mem_head? (Option.mem_def.mpr heq)
      have hall := (findAllL_arrowFree cs hcs a b classes2 d hmemN).1
      have hc : c ∈ classes2 := List.mem_of_find?_eq_some hfind
      have hcfree : hasArrow c = false := by
        have := List.all_eq_true.mp hall c hc
        simpa using this
      simp only [hasArrow, decide_eq_false_iff_not] at hcfree ⊢
      intro hm
      exact hcfree (List.drop_subset 9 c.data hm)
    next => decide
  next => decide

theorem mkHeading_arrowFree (lvl : Nat) (s : String) :
    ∀ t ∈ blockTexts (mkHeading lvl (pyStrip (stripArrow s))), hasArrow t = false := by
  intro t ht
  unfold mkHeading at ht
  simp only [blockTexts] at ht
  split at ht
  · exact absurd ht (by simp)
  · simp only [List.map, List.mem_singleton] at ht
    subst ht
    exact stripArrow_trim_arrowFree s

theorem addCodeBlock_arrowFree {code lang : String} (hl : hasArrow lang = false) :
    ∀ t ∈ blockTexts (addCodeBlock code lang), hasArrow t = false := by
  intro t ht
  unfold addCodeBlock at ht
  simp only [blockTexts] at ht
  rw [List.map_append] at ht
  rcases List.mem_append.mp ht with h | h
  · split at h
    · simp only [List.map, List.mem_singleton] at h
      subst h
      exact hasArrow_append (hasArrow_append (by decide) hl) (by decide)
    · exact absurd h (by simp)
  · simp only [List.map, List.mem_singleton] at h
    subst h
    exact hasArrow_stripArrow _

set_option maxHeartbeats 2000000 in
theorem processNodes_arrowFree :
    ∀ ns : List Node, nodesArrowFree ns = true →
      ∀ t ∈ docTexts (processNodes ns), hasArrow t = false := by
  intro ns
  induction ns using processNodes.induct with
  | case1 => intro _ t ht; simp [processNodes, docTexts] at ht
  | case2 s rest ih =>
      intro hn t ht
      simp only [nodesArrowFree, Bool.and_eq_true] at hn
      simp only [processNodes] at ht
      rw [docTexts_append] at ht
      rcases List.mem_append.mp ht with ht | ht
      · split at ht
        · exact absurd ht (by simp [docTexts])
        · split at ht
          · rcases mem_docTexts.mp ht with ⟨blk, hblk, htb⟩
            simp only [List.mem_singleton] at hblk
            subst hblk
            simp only [blockTexts, List.map, List.mem_singleton] at htb
            subst htb
            exact stripArrow_trim_arrowFree s
          · exact absurd ht (by simp [docTexts])
      · exact ih hn.2 t ht
  | case3 tag idAttr classes cs rest ih1 ih2 =>
      intro hn t ht
      simp only [nodesArrowFree, Bool.and_eq_true] at hn
      rcases hn with ⟨⟨⟨_, _⟩, hcs⟩, hrest⟩
      simp only [processNodes] at ht
      rw [docTexts_append] at ht
      rcases List.mem_append.mp ht with ht | ht
      · by_cases e1 : tag = "br"
        · rw [if_pos e1] at ht; exact absurd ht (by simp [docTexts])
        rw [if_neg e1] at ht
        by_cases e2 : tag = "h1"
        · rw [if_pos e2] at ht
          rcases mem_docTexts.mp ht with ⟨blk, hblk, htb⟩
          simp only [List.mem_singleton] at hblk
          subst hblk
          exact mkHeading_arrowFree _ _ t htb
        rw [if_neg e2] at ht
        by_cases e3 : tag = "h2"
        · rw [if_pos e3] at ht
          rcases mem_docTexts.mp ht with ⟨blk, hblk, htb⟩
          simp only [List.mem_singleton] at hblk
          subst hblk
          exact mkHeading_arrowFree _ _ t htb
        rw [if_neg e3] at ht
        by_cases e4 : tag = "h3"
        · rw [if_pos e4] at ht
          rcases mem_docTexts.mp ht with ⟨blk, hblk, htb⟩
          simp only [List.mem_singleton] at hblk
          subst hblk
          exact mkHeading_arrowFree _ _ t htb
        rw [if_neg e4] at ht
        by_cases e5 : tag = "h4"
        · rw [if_pos e5] at ht
          rcases mem_docTexts.mp ht with ⟨blk, hblk, htb⟩
          simp only [List.mem_singleton] at hblk
          subst hblk
          exact mkHeading_arrowFree _ _ t htb
        rw [if_neg e5] at ht
        by_cases e6 : tag = "h5"
        · rw [if_pos e6] at ht
          rcases mem_docTexts.mp ht with ⟨blk, hblk, htb⟩
          simp only [List.mem_singleton] at hblk
          subst hblk
          exact mkHeading_arrowFree _ _ t htb
        rw [if_neg e6] at ht
        by_cases e7 : tag = "h6"
        · rw [if_pos e7] at ht
          rcases mem_docTexts.mp ht with ⟨blk, hblk, htb⟩
          simp only [List.mem_singleton] at hblk
          subst hblk
          exact mkHeading_arrowFree _ _ t htb
        rw [if_neg e7] at ht
        by_cases e8 : tag = "p"
        · rw [if_pos e8] at ht
          by_cases e8b : pyStrip (stripArrow (getTextL cs)) = ""
          · rw [if_pos e8b] at ht; exact absurd ht (by simp [docTexts])
          · rw [if_neg e8b] at ht
            rcases mem_docTexts.mp ht with ⟨blk, hblk, htb⟩
            simp only [List.mem_singleton] at hblk
            subst hblk
            simp only [blockTexts] at htb
            rcases List.mem_map.mp htb with ⟨r, hr, hrt⟩
            rw [← hrt]
            exact addRuns_arrowFree cs r hr
        rw [if_neg e8] at ht
        by_cases e9 : tag = "ul"
        · rw [if_pos e9] at ht
          exact addList_arrowFree _ _ _ t ht
        rw [if_neg e9] at ht
        by_cases e10 : tag = "ol"
        · rw [if_pos e10] at ht
          exact addList_arrowFree _ _ _ t ht
        rw [if_neg e10] at ht
        by_cases e11 : tag = "pre"
        · rw [if_pos e11] at ht
          rcases mem_docTexts.mp ht with ⟨blk, hblk, htb⟩
          simp only [List.mem_singleton] at hblk
          subst hblk
          exact addCodeBlock_arrowFree (preLanguage_arrowFree hcs) t htb
        rw [if_neg e11] at ht
        by_cases e12 : tag = "table"
        · rw [if_pos e12] at ht
          split at ht
          next grid heq =>
            rcases mem_docTexts.mp ht with ⟨blk, hblk, htb⟩
            simp only [List.mem_singleton] at hblk
            subst hblk
            exact addHtmlTable_arrowFree heq t htb
          next => exact absurd ht (by simp [docTexts])
        rw [if_neg e12] at ht
        by_cases e13 : tag = "hr"
        · rw [if_pos e13] at ht
          rcases mem_docTexts.mp ht with ⟨blk, hblk, htb⟩
          simp only [List.mem_singleton] at hblk
          subst hblk
          simp only [blockTexts, List.map, List.mem_singleton] at htb
          subst htb
          decide
        rw [if_neg e13] at ht
        by_cases e14 : tag = "script" ∨ tag = "style" ∨ tag = "canvas"
        · rw [if_pos e14] at ht; exact absurd ht (by simp [docTexts])
        rw [if_neg e14] at ht
        by_cases e15 : tag = "div"
        · rw [if_pos e15] at ht
          by_cases e15b : divIsChart idAttr classes (getTextL cs) = true
          · rw [if_pos e15b] at ht; exact absurd ht (by simp [docTexts])
          · rw [if_neg e15b] at ht
            exact ih1 hcs t ht
        rw [if_neg e15] at ht
        exact ih1 hcs t ht
      · exact ih2 hrest t ht

/-- C7: the top-level pre-processing removes exactly the down-arrow
marker — every other character is preserved verbatim — and for a tree
parsed from such ↓-free source (and a ↓-free title) no run text or
table cell of the emitted document contains the marker. -/
theorem C7_down_arrow_never_emitted (md title : String) (tree : List Node)
    (htitle : hasArrow title = false)
    (htree : nodesArrowFree tree = true) :
    hasArrow (stripArrow md) = false
    ∧ (stripArrow md).data = md.data.filter (fun c => c ≠ '↓')
    ∧ ∀ t ∈ docTexts (convertMarkdownToDocx title tree), hasArrow t = false := by
  refine ⟨hasArrow_stripArrow md, removeArrowL_eq_filter md.data, ?_⟩
  intro t ht
  unfold convertMarkdownToDocx at ht
  rcases mem_docTexts.mp ht with ⟨blk, hblk, htb⟩
  rcases List.mem_cons.mp hblk with hb | hb
  · subst hb
    simp only [titleBlock, blockTexts, List.map, List.mem_singleton] at htb
    subst htb
    exact htitle
  · exact processNodes_arrowFree tree htree t (mem_docTexts.mpr ⟨blk, hb, htb⟩)

/-- C7 witness: a source with the marker and a bullet, a plain title,
and a one-paragraph tree. -/
theorem C7_down_arrow_never_emitted_witness :
    hasArrow "T" = false
    ∧ nodesArrowFree [Node.text "hello • wonderful world"] = true
    ∧ (hasArrow (stripArrow "a↓•b") = false
       ∧ (stripArrow "a↓•b").data
           = "a↓•b".data.filter (fun c => c ≠ '↓')
       ∧ ∀ t ∈ docTexts
             (convertMarkdownToDocx "T" [Node.text "hello • wonderful world"]),
           hasArrow t = false) :=
  ⟨by decide, by simp only [nodesArrowFree]; decide,
   C7_down_arrow_never_emitted "a↓•b" "T" [Node.text "hello • wonderful world"]
     (by decide) (by simp only [nodesArrowFree]; decide)⟩

end DocTool

